import Mathlib

/-! Verification of the TextViewer document engine (src/src/app.js): byte-level
encoding detection, pagination, virtual-scroll chunking, literal search, and the
library/encoding state operations.  All definitions are shallow embeddings of the
corresponding JavaScript functions; console logging and DOM manipulation in the
source are pure observers of the modelled values and are not embedded. -/

namespace TextViewer

/-- Byte buffers (`Uint8Array` in the source) are modelled as lists of byte values. -/
abbrev ByteBuffer := List Nat

/-- UTF-8 BOM test of `detectEncodingFromBuffer`.  In the source all three BOM
tests are nested under `if (buffer.length >= 3)`, so they require at least three
bytes, which the three-cons pattern captures. -/
def hasUtf8BOM : ByteBuffer → Bool
  | b0 :: b1 :: b2 :: _ => b0 == 0xEF && b1 == 0xBB && b2 == 0xBF
  | _ => false

/-- UTF-16BE BOM test (`FE FF`), likewise guarded by `buffer.length >= 3`. -/
def hasUtf16BEBOM : ByteBuffer → Bool
  | b0 :: b1 :: _ :: _ => b0 == 0xFE && b1 == 0xFF
  | _ => false

/-- UTF-16LE BOM test (`FF FE`), likewise guarded by `buffer.length >= 3`. -/
def hasUtf16LEBOM : ByteBuffer → Bool
  | b0 :: b1 :: _ :: _ => b0 == 0xFF && b1 == 0xFE
  | _ => false

/-- The four statistics accumulated by the scoring loop of
`detectEncodingFromBuffer` (source lines 1693-1752). -/
structure ScanStats where
  eucKrScore : Nat
  utf8Score : Nat
  validUtf8Sequences : Nat
  invalidUtf8Sequences : Nat
deriving Repr, DecidableEq

/-- One pass of the scoring loop of `detectEncodingFromBuffer`.  The loop index
`i` is replaced by recursion on the remaining buffer; `i += bytesToCheck` in the
source becomes dropping the verified continuation bytes.  The extra fuel
argument makes the recursion structural (the loop itself always advances, so
fuel `buffer.length` is enough; see `detectScan`). -/
def detectScanF : Nat → ByteBuffer → ScanStats
  | 0, _ => ⟨0, 0, 0, 0⟩
  | _ + 1, [] => ⟨0, 0, 0, 0⟩
  | fuel + 1, b1 :: rest =>
    -- EUC-KR range checks on the pair (buffer[i], buffer[i+1]), when it exists
    let eucAdd :=
      match rest with
      | b2 :: _ =>
        (if 0xB0 ≤ b1 ∧ b1 ≤ 0xC8 ∧ 0xA1 ≤ b2 ∧ b2 ≤ 0xFE then 2 else 0) +
        (if 0xA1 ≤ b1 ∧ b1 ≤ 0xAC ∧ 0xA1 ≤ b2 ∧ b2 ≤ 0xFE then 1 else 0)
      | [] => 0
    if 0xC0 ≤ b1 then
      let btc :=
        if b1 &&& 0xE0 = 0xC0 then 1
        else if b1 &&& 0xF0 = 0xE0 then 2
        else if b1 &&& 0xF8 = 0xF0 then 3
        else 0
      -- continuation bytes that exist (`i + j < buffer.length`) must be 10xxxxxx
      let contOk := (rest.take btc).all (fun b => b &&& 0xC0 == 0x80)
      if btc ≠ 0 ∧ contOk = true ∧ btc ≤ rest.length then
        let score :=
          if btc = 2 ∧ b1 &&& 0xF0 = 0xE0 then
            match rest with
            | b2 :: b3 :: _ =>
              let cp := ((b1 &&& 0x0F) <<< 12) ||| ((b2 &&& 0x3F) <<< 6) ||| (b3 &&& 0x3F)
              if 0xAC00 ≤ cp ∧ cp ≤ 0xD7AF then 3
              else if 0x80 ≤ cp then 1
              else 0
            | _ => 0  -- unreachable: btc = 2 forces at least two remaining bytes
          else 0
        let r := detectScanF fuel (rest.drop btc)
        ⟨eucAdd + r.eucKrScore, score + r.utf8Score,
          1 + r.validUtf8Sequences, r.invalidUtf8Sequences⟩
      else
        let r := detectScanF fuel rest
        ⟨eucAdd + r.eucKrScore, r.utf8Score,
          r.validUtf8Sequences, 1 + r.invalidUtf8Sequences⟩
    else
      let r := detectScanF fuel rest
      ⟨eucAdd + r.eucKrScore, r.utf8Score, r.validUtf8Sequences, r.invalidUtf8Sequences⟩

/-- Scoring loop of `detectEncodingFromBuffer` at its natural fuel. -/
def detectScan (buf : ByteBuffer) : ScanStats :=
  detectScanF buf.length buf

/-- Count of bytes above 0x7F (the `highBitCount` loop, source lines 1758-1764).
The companion `asciiCount`/`asciiRatio` values are only logged, never used in a
decision, and are not embedded. -/
def highBitCount (buf : ByteBuffer) : Nat :=
  buf.countP (fun b => !(b ≤ 0x7F : Bool))

/-- The encoding detector `detectEncodingFromBuffer` (source lines 1670-1810):
BOM checks first, then the heuristic decision chain over the scan statistics. -/
def detectEncodingFromBuffer (buf : ByteBuffer) : String :=
  if hasUtf8BOM buf then "UTF-8"
  else if hasUtf16BEBOM buf then "UTF-16BE"
  else if hasUtf16LEBOM buf then "UTF-16LE"
  else
    let s := detectScan buf
    if highBitCount buf = 0 then "UTF-8"
    else if 0 < s.validUtf8Sequences ∧ s.invalidUtf8Sequences = 0 ∧ 0 < s.utf8Score then "UTF-8"
    else if s.utf8Score < s.eucKrScore ∧ 0 < s.eucKrScore then "EUC-KR"
    else if 0 < s.utf8Score then "UTF-8"
    else if 0 < highBitCount buf then "EUC-KR"
    else "UTF-8"

/-- The slicing loop shared verbatim by `enableVirtualScrolling` (with
`chunkSize`, source lines 2013-2021) and `preparePagingData` (with
`linesPerPage`, source lines 1928-1940): slice `i` is
`lines.slice(i*per, min((i+1)*per, n))` and there are `Math.ceil(n/per)`
slices. -/
def sliceChunks (per : Nat) (l : List α) : List (List α) :=
  (List.range ((l.length + per - 1) / per)).map fun i => (l.drop (i * per)).take per

/-- One element of `this.paging.pages` (source lines 1921-1937). -/
structure PageData (α : Type _) where
  pageNumber : Nat
  lines : List α
  isCover : Bool
deriving Repr, DecidableEq, Inhabited

/-- Outcome of `preparePagingData` (source lines 1905-1947): the page list
(cover page first when `isElectron`), the final `totalPages` (the source
overwrites the initial ceil with `pages.length` at line 1943), and the initial
`currentPage` (2 when a cover page exists, else 1). -/
structure PagingData (α : Type _) where
  pages : List (PageData α)
  totalPages : Nat
  currentPage : Nat
deriving Repr, DecidableEq

/-- The page-building loop of `preparePagingData`: the loop bound is the
initial `Math.ceil(lines.length / linesPerPage)`; iteration `i` pushes content
page `i+1` holding `lines.slice(i*linesPerPage, min((i+1)*linesPerPage, n))`; a
synthetic cover page (number 0, no lines) is pushed first in the Electron
double-page layout. -/
def preparePagingData (lines : List α) (linesPerPage : Nat) (isElectron : Bool) :
    PagingData α :=
  let initialTotal := (lines.length + linesPerPage - 1) / linesPerPage
  let coverPages : List (PageData α) := if isElectron then [⟨0, [], true⟩] else []
  let contentPages := (List.range initialTotal).map
    (fun i => ⟨i + 1, (lines.drop (i * linesPerPage)).take linesPerPage, false⟩)
  let pages := coverPages ++ contentPages
  ⟨pages, pages.length, if isElectron then 2 else 1⟩

/-- The scroll-line to page-number direction of the position translation
(`getPageFromLine`, source lines 1550-1559). -/
def getPageFromLine (isElectron : Bool) (linesPerPage : Nat) (lineNumber : Nat) : Nat :=
  let pageIndex := lineNumber / linesPerPage
  if isElectron then pageIndex + 2 else pageIndex + 1

/-- The `pageIndex` local of `getFirstLineFromCurrentPage`: `currentPage - 1`,
overwritten with `currentPage - 2` when the Electron cover page precedes
(source lines 1533-1538). -/
def coverAdjustedPageIndex (isElectron : Bool) (currentPage : Int) : Int :=
  if isElectron ∧ 1 < currentPage then currentPage - 2 else currentPage - 1

/-- The page-number to first-line direction (`getFirstLineFromCurrentPage`,
source lines 1528-1545); the page number is an integer so the defensive clamps
stay visible. -/
def getFirstLineFromCurrentPage (isElectron : Bool) (linesPerPage : Nat)
    (currentPage : Int) : Int :=
  if currentPage ≤ 0 then 0
  else if coverAdjustedPageIndex isElectron currentPage < 0 then 0
  else coverAdjustedPageIndex isElectron currentPage * linesPerPage

/-- JavaScript strings are modelled as lists of UTF-16 code units. -/
abbrev JSString := List Nat

/-- The line-feed code unit, `'\n'`. -/
def nlCode : Nat := 10

/-- Case canonicalisation performed by the `i` flag of the search regex
(source line 2316), on code units: ASCII upper-case letters fold to lower
case.  Folding of non-ASCII letters is not modelled; no claim depends on it. -/
def foldCode (n : Nat) : Nat := if 65 ≤ n ∧ n ≤ 90 then n + 32 else n

/-- Case-insensitive comparison of one literal query character with one text
character. -/
def charEq (a b : Nat) : Bool := foldCode a == foldCode b

/-- The escaped literal query matches at the start of the text: each query
character matches exactly one text character, case-insensitively. -/
def isMatchAt : JSString → JSString → Bool
  | [], _ => true
  | _ :: _, [] => false
  | q :: qs, t :: ts => charEq q t && isMatchAt qs ts

/-- One search result of `findInText` (source lines 2320-2325): match offset,
length and matched text.  The `chunkIndex` field, derived from UI chunk state
and compared by no claim, is not modelled. -/
structure SearchMatch where
  index : Nat
  length : Nat
  text : JSString
deriving Repr, DecidableEq

/-- The `regex.exec` loop of `findInText`: report each leftmost
case-insensitive literal occurrence and continue from `lastIndex`, the end of
the reported match.  Fuel makes the recursion structural; `text.length`
suffices for a non-empty query because every step consumes at least one
character (see `findMatches`).  On the empty query the source's loop never
terminates (`exec` keeps returning an empty match at index 0); the callers
reject empty queries (`performSearch`, source line 2274). -/
def findMatchesF (q : JSString) : Nat → JSString → Nat → List SearchMatch
  | 0, _, _ => []
  | _ + 1, [], _ => []
  | fuel + 1, c :: rest, pos =>
    if isMatchAt q (c :: rest) then
      ⟨pos, q.length, (c :: rest).take q.length⟩ ::
        findMatchesF q fuel ((c :: rest).drop q.length) (pos + q.length)
    else
      findMatchesF q fuel rest (pos + 1)

/-- The exec loop at its natural fuel, started at position `pos`. -/
def findMatches (q t : JSString) (pos : Nat) : List SearchMatch :=
  findMatchesF q t.length t pos

/-- `findInText(query, content = null, offset = 0)` (source lines 2313-2329):
`content || this.currentContent` falls back to the full text when `content` is
absent or empty (both falsy); each local match index is shifted by `offset`. -/
def findInText (currentContent query : JSString) (content : Option JSString)
    (offset : Nat) : List SearchMatch :=
  let searchContent :=
    match content with
    | some c => if c.isEmpty then currentContent else c
    | none => currentContent
  (findMatches query searchContent 0).map (fun m => ⟨m.index + offset, m.length, m.text⟩)

/-- `lines.join('\n')`: the text of a chunk, and the full text from its lines. -/
def joinLines : List JSString → JSString
  | [] => []
  | [l] => l
  | l :: ls => l ++ nlCode :: joinLines ls

/-- The fixed virtual-scrolling chunk size: 1000 lines (constructor, source
line 752; never reassigned).  `enableVirtualScrolling` (source lines 2007-2022)
slices the line list with it, which is `sliceChunks chunkSize`; only the chunk
line lists matter to search, so the render bookkeeping fields are dropped. -/
def chunkSize : Nat := 1000

/-- The chunk loop of `performVirtualSearch` (source lines 2298-2311): search
every chunk's joined text at the running `globalIndex` offset and concatenate
in chunk order; the offset advances by the chunk text length plus one for the
newline that separates chunks in the full text. -/
def performVirtualSearchGo (currentContent query : JSString) :
    List (List JSString) → Nat → List SearchMatch
  | [], _ => []
  | chunk :: rest, globalIndex =>
    findInText currentContent query (some (joinLines chunk)) globalIndex ++
      performVirtualSearchGo currentContent query rest
        (globalIndex + (joinLines chunk).length + 1)

/-- `performVirtualSearch` starting from `globalIndex = 0`. -/
def performVirtualSearch (currentContent query : JSString)
    (chunks : List (List JSString)) : List SearchMatch :=
  performVirtualSearchGo currentContent query chunks 0

/-- Search navigation state: the current results and the cursor
(`currentSearchIndex`, `-1` when there is no match). -/
structure SearchState where
  searchResults : List SearchMatch
  currentSearchIndex : Int
deriving Repr, DecidableEq

/-- `nextSearch` (source lines 2377-2384); the highlight/scroll side effects
read but never change the modelled state. -/
def nextSearch (s : SearchState) : SearchState :=
  if s.searchResults.length = 0 then s
  else { s with currentSearchIndex :=
    (s.currentSearchIndex + 1) % (s.searchResults.length : Int) }

/-- `previousSearch` (source lines 2386-2395). -/
def previousSearch (s : SearchState) : SearchState :=
  if s.searchResults.length = 0 then s
  else if s.currentSearchIndex ≤ 0 then
    { s with currentSearchIndex := (s.searchResults.length : Int) - 1 }
  else
    { s with currentSearchIndex := s.currentSearchIndex - 1 }

/-- A 1001-line document, every line "a": it splits into a 1000-line chunk and
a 1-line chunk, so the full text has one newline (between lines 1000 and 1001)
that belongs to no chunk's joined text. -/
def counterLines : List JSString := List.replicate 1001 [97]

/-- The 1 MB slice size of `readFileInChunks` (source line 1847). -/
def byteChunkSize : Nat := 1024 * 1024

/-- The 50 MB large-file threshold of `readFileContent` (source line 1814). -/
def largeFileThreshold : Nat := 50 * 1024 * 1024

/-- The read loop of `readFileInChunks` (source lines 1846-1864): while bytes
remain, decode the next 1 MB slice as UTF-8 (`readChunk`, source lines
1866-1873) and append; after `offset` advances, when
`offset % (chunkSize * 10) === 0` the loop awaits a timeout to yield the UI
thread — the second component counts those yields.  The text decoder (the
host `FileReader`, decoded text as code units) is a parameter.  Fuel (at least
the remaining byte count) makes the loop structural. -/
def readFileInChunksGo (decode : String → List Nat → JSString) :
    Nat → List Nat → Nat → JSString × Nat
  | 0, _, _ => ([], 0)
  | _ + 1, [], _ => ([], 0)
  | fuel + 1, b :: bs, offset =>
    let chunkContent := decode "UTF-8" ((b :: bs).take byteChunkSize)
    let newOffset := offset + byteChunkSize
    let r := readFileInChunksGo decode fuel ((b :: bs).drop byteChunkSize) newOffset
    (chunkContent ++ r.1, (if newOffset % (byteChunkSize * 10) = 0 then 1 else 0) + r.2)

/-- `readFileInChunks` at its natural fuel, from offset 0. -/
def readFileInChunks (decode : String → List Nat → JSString) (file : List Nat) :
    JSString × Nat :=
  readFileInChunksGo decode file.length file 0

/-- `readFileContent` (source lines 1812-1844): above 50 MB, chunk-decode as
UTF-8 and report encoding "UTF-8" without running detection; otherwise detect
the encoding from the first 1 KB sample (`detectFileEncoding`, source lines
1645-1665) and decode the whole file with it.  Result: content, reported
encoding, and the number of cooperative yields taken. -/
def readFileContent (decode : String → List Nat → JSString) (file : List Nat) :
    JSString × String × Nat :=
  if largeFileThreshold < file.length then
    let r := readFileInChunks decode file
    (r.1, "UTF-8", r.2)
  else
    let enc := detectEncodingFromBuffer (file.take 1024)
    (decode enc file, enc, 0)

/-- A library book (`addBookFromFile`, source lines 1031-1042).  `type` is
display metadata and is omitted; `filePath` exists only for books opened
through the Electron host; `originalFile` retains the picked file's bytes for
re-decoding. -/
structure Book where
  id : Nat
  name : String
  size : Nat
  lastModified : Nat
  content : JSString
  encoding : String
  detectedEncoding : String
  filePath : Option String
  originalFile : Option (List Nat)
  addedDate : String
deriving Repr, DecidableEq

/-- File metadata supplied by the host file picker. -/
structure FileMeta where
  name : String
  size : Nat
  lastModified : Nat
deriving Repr, DecidableEq

/-- The viewer state the modelled operations touch: the library, the selected
book as a library position (`selectedBook` aliases a library entry in the
source, so mutating it mutates the entry), and the displayed text. -/
structure ViewerState where
  library : List Book
  selectedBook : Option Nat
  currentContent : JSString
deriving Repr, DecidableEq

/-- Messages surfaced to the user by `showError` and `showInfo`; transient
toasts, recorded as outputs rather than state. -/
structure Effects where
  errors : List String
  infos : List String
deriving Repr, DecidableEq

/-- `addBookToLibrary` (source lines 1053-1072): replace the first book with
the same name and size, else append; `saveLibrary`/`renderLibrary` persist and
re-render and are outside the modelled state. -/
def addBookToLibrary (book : Book) (st : ViewerState) : ViewerState × Effects :=
  match st.library.findIdx? (fun b => b.name == book.name && b.size == book.size) with
  | some i => ({ st with library := st.library.set i book }, ⟨[], ["책이 업데이트되었습니다."]⟩)
  | none => ({ st with library := st.library ++ [book] }, ⟨[], ["책이 서재에 추가되었습니다."]⟩)

/-- `addBookFromFile` (source lines 1025-1051).  The awaited outcome of
`readFileContent` is a parameter: `.error` is a rejected read.  `newId` stands
for `Date.now() + Math.random()`, `now` for the ISO timestamp; the
`showLoading` toggles are transient UI. -/
def addBookFromFile (newId : Nat) (now : String) (meta : FileMeta)
    (fileBytes : List Nat) (readResult : Except String (JSString × String))
    (st : ViewerState) : ViewerState × Effects :=
  match readResult with
  | .error _ => (st, ⟨["파일을 읽을 수 없습니다."], []⟩)
  | .ok r =>
    let book : Book :=
      ⟨newId, meta.name, meta.size, meta.lastModified, r.1, r.2, r.2, none,
        some fileBytes, now⟩
    addBookToLibrary book st

/-- `changeEncoding` (source lines 3103-3162).  `electronRead` models
`window.electronAPI.readFileWithEncoding` when the Electron host is present;
`decodeAs` models `FileReader.readAsText(originalFile, encoding)`.  Rendering
(`displayFile`) is outside the modelled state except for `currentContent`. -/
def changeEncoding (electronRead : Option (String → String → Option JSString))
    (decodeAs : List Nat → String → JSString) (newEncoding : String)
    (st : ViewerState) : ViewerState × Effects :=
  match st.selectedBook with
  | none => (st, ⟨[], []⟩)
  | some i =>
    match st.library[i]? with
    | none => (st, ⟨[], []⟩)  -- dangling selection: modelling artifact, not reachable
    | some book =>
      match book.filePath, electronRead with
      | some path, some api =>
        match api path newEncoding with
        | some content =>
          let newBook := { book with content := content, encoding := newEncoding }
          ({ st with library := st.library.set i newBook, currentContent := content },
            ⟨[], ["인코딩이 변경되었습니다."]⟩)
        | none => (st, ⟨[], []⟩)
      | _, _ =>
        match book.originalFile with
        | some bytes =>
          let content := decodeAs bytes newEncoding
          let newBook := { book with content := content, encoding := newEncoding }
          ({ st with library := st.library.set i newBook, currentContent := content },
            ⟨[], ["인코딩이 변경되었습니다."]⟩)
        | none =>
          let newBook := { book with encoding := newEncoding }
          ({ st with library := st.library.set i newBook },
            ⟨[], ["인코딩 정보가 변경되었습니다."]⟩)

lemma bom_all_false_of_ascii {buf : ByteBuffer} (h : ∀ b ∈ buf, b ≤ 0x7F) :
    hasUtf8BOM buf = false ∧ hasUtf16BEBOM buf = false ∧ hasUtf16LEBOM buf = false := by
  match buf with
  | [] => exact ⟨rfl, rfl, rfl⟩
  | [_] => exact ⟨rfl, rfl, rfl⟩
  | [_, _] => exact ⟨rfl, rfl, rfl⟩
  | b0 :: b1 :: b2 :: rest =>
    have h0 := h b0 (by simp)
    refine ⟨?_, ?_, ?_⟩ <;> simp [hasUtf8BOM, hasUtf16BEBOM, hasUtf16LEBOM] <;> omega

lemma highBitCount_eq_zero_of_ascii {buf : ByteBuffer} (h : ∀ b ∈ buf, b ≤ 0x7F) :
    highBitCount buf = 0 := by
  simp only [highBitCount, List.countP_eq_zero]
  intro b hb
  simpa using h b hb

/-- C4: every buffer whose bytes are all at most 0x7F (the empty buffer
included) is detected as UTF-8: the BOM checks cannot fire and the
pure-ASCII branch (`highBitCount === 0`) returns before any heuristic. -/
theorem detect_pure_ascii_utf8 (buf : ByteBuffer) (h : ∀ b ∈ buf, b ≤ 0x7F) :
    detectEncodingFromBuffer buf = "UTF-8" := by
  obtain ⟨h1, h2, h3⟩ := bom_all_false_of_ascii h
  simp [detectEncodingFromBuffer, h1, h2, h3, highBitCount_eq_zero_of_ascii h]

/-- Witness for C4 at the empty buffer and at the ASCII bytes of "Hi". -/
theorem detect_pure_ascii_utf8_witness :
    detectEncodingFromBuffer [] = "UTF-8" ∧ detectEncodingFromBuffer [0x48, 0x69] = "UTF-8" :=
  ⟨detect_pure_ascii_utf8 [] (by simp),
   detect_pure_ascii_utf8 [0x48, 0x69] (by decide)⟩

/-- C3: on a BOM-less buffer with at least one high byte, when the UTF-8
acceptance condition fails and `eucKrScore` beats `utf8Score` and is positive,
the detector answers EUC-KR. -/
theorem detect_euc_kr_of_scores (buf : ByteBuffer)
    (hb1 : hasUtf8BOM buf = false) (hb2 : hasUtf16BEBOM buf = false)
    (hb3 : hasUtf16LEBOM buf = false)
    (hhigh : 0 < highBitCount buf)
    (hnotUtf8 : ¬(0 < (detectScan buf).validUtf8Sequences ∧
      (detectScan buf).invalidUtf8Sequences = 0 ∧ 0 < (detectScan buf).utf8Score))
    (heuc : (detectScan buf).utf8Score < (detectScan buf).eucKrScore)
    (heuc0 : 0 < (detectScan buf).eucKrScore) :
    detectEncodingFromBuffer buf = "EUC-KR" := by
  simp [detectEncodingFromBuffer, hb1, hb2, hb3, Nat.pos_iff_ne_zero.mp hhigh,
    hnotUtf8, heuc, heuc0]

/-- Witness for C3 at the spec's concrete buffer `[0xB0, 0xA1, 0xB0, 0xA2]`
(two EUC-KR Hangul pairs, no BOM): detection returns EUC-KR. -/
theorem detect_euc_kr_of_scores_witness :
    detectEncodingFromBuffer [0xB0, 0xA1, 0xB0, 0xA2] = "EUC-KR" :=
  detect_euc_kr_of_scores [0xB0, 0xA1, 0xB0, 0xA2]
    (by decide) (by decide) (by decide) (by decide) (by decide) (by decide) (by decide)

/-- C1 (amended): the UTF-16 BOM checks do fire first and win regardless of the
trailing content, but only on buffers of length at least three, because the
source nests them under `if (buffer.length >= 3)`. -/
theorem detect_utf16_bom (b2 : Nat) (rest : ByteBuffer) :
    detectEncodingFromBuffer (0xFE :: 0xFF :: b2 :: rest) = "UTF-16BE" ∧
    detectEncodingFromBuffer (0xFF :: 0xFE :: b2 :: rest) = "UTF-16LE" := by
  constructor <;>
    simp [detectEncodingFromBuffer, hasUtf8BOM, hasUtf16BEBOM, hasUtf16LEBOM]

/-- C1 counterexample: the exactly-two-byte buffers `FE FF` and `FF FE` skip the
BOM checks (which need three bytes) and fall through to the ambiguous-high-byte
default, EUC-KR. -/
theorem detect_utf16_bom_counterexample :
    detectEncodingFromBuffer [0xFE, 0xFF] = "EUC-KR" ∧
    detectEncodingFromBuffer [0xFE, 0xFF] ≠ "UTF-16BE" ∧
    detectEncodingFromBuffer [0xFF, 0xFE] = "EUC-KR" ∧
    detectEncodingFromBuffer [0xFF, 0xFE] ≠ "UTF-16LE" := by
  refine ⟨by decide, ?_, by decide, ?_⟩ <;> decide

lemma sliceChunks_nil (per : Nat) : sliceChunks per ([] : List α) = [] := by
  have h : (([] : List α).length + per - 1) / per = 0 := by
    cases per with
    | zero => rw [Nat.div_zero]
    | succ n =>
      simp only [List.length_nil, Nat.zero_add]
      exact Nat.div_eq_of_lt (by omega)
  simp only [sliceChunks, h, List.range_zero, List.map_nil]

lemma sliceChunks_cons (per : Nat) (hper : 0 < per) (l : List α) (hl : l ≠ []) :
    sliceChunks per l = l.take per :: sliceChunks per (l.drop per) := by
  have hlen : 0 < l.length := List.length_pos.mpr hl
  have hcount : (l.length + per - 1) / per = (l.length - 1) / per + 1 := by
    have h1 : l.length + per - 1 = (l.length - 1) + per := by omega
    rw [h1, Nat.add_div_right _ hper]
  have hcount2 : ((l.drop per).length + per - 1) / per = (l.length - 1) / per := by
    rw [List.length_drop]
    rcases le_or_lt per l.length with h | h
    · congr 1
      omega
    · have h1 : l.length - per = 0 := by omega
      rw [h1, Nat.div_eq_of_lt (by omega), Nat.div_eq_of_lt (by omega)]
  unfold sliceChunks
  rw [hcount, List.range_succ_eq_map, List.map_cons, List.map_map, hcount2]
  simp only [Nat.zero_mul, List.drop_zero]
  congr 1
  apply List.map_congr_left
  intro i hi
  simp only [Function.comp_apply, List.drop_drop]
  have h2 : (i + 1) * per = per + i * per := by ring
  rw [h2]

lemma sliceChunks_flatten (per : Nat) (hper : 0 < per) (l : List α) :
    (sliceChunks per l).flatten = l := by
  generalize hn : l.length = n
  induction n using Nat.strong_induction_on generalizing l with
  | _ n ih =>
    rcases eq_or_ne l [] with rfl | hl
    · simp [sliceChunks_nil]
    · have hlen : 0 < l.length := List.length_pos.mpr hl
      rw [sliceChunks_cons per hper l hl, List.flatten_cons,
        ih ((l.drop per).length) (by rw [List.length_drop]; omega) (l.drop per) rfl,
        List.take_append_drop]

lemma sliceChunks_ne_nil (per : Nat) (hper : 0 < per) (l : List α) :
    ∀ c ∈ sliceChunks per l, c ≠ [] := by
  intro c hc
  simp only [sliceChunks, List.mem_map, List.mem_range] at hc
  obtain ⟨i, hi, rfl⟩ := hc
  rcases Nat.eq_zero_or_pos l.length with hzero | hpos
  · rw [hzero, Nat.zero_add, Nat.div_eq_of_lt (by omega)] at hi
    omega
  · have h2 : (i + 1) * per ≤ l.length + per - 1 := by
      calc (i + 1) * per = per * (i + 1) := by ring
        _ ≤ per * ((l.length + per - 1) / per) := Nat.mul_le_mul_left per hi
        _ ≤ l.length + per - 1 := Nat.mul_div_le _ _
    have h3 : i * per + per ≤ l.length + per - 1 := by
      rw [Nat.succ_mul] at h2
      exact h2
    have hlt : i * per < l.length := by
      generalize i * per = x at h3 ⊢
      omega
    apply List.length_pos.mp
    simp only [List.length_take, List.length_drop]
    omega

lemma preparePagingData_noncover (lines : List α) (lpp : Nat) (elec : Bool) :
    ((preparePagingData lines lpp elec).pages.filter (fun p => !p.isCover)).map
        PageData.lines = sliceChunks lpp lines := by
  have hmap : ∀ n : Nat,
      (((List.range n).map (fun i =>
          (⟨i + 1, (lines.drop (i * lpp)).take lpp, false⟩ : PageData α))).filter
        (fun p => !p.isCover)).map PageData.lines =
      (List.range n).map (fun i => (lines.drop (i * lpp)).take lpp) := by
    intro n
    rw [List.filter_map, List.map_map]
    have hful : List.filter ((fun p : PageData α => !p.isCover) ∘ (fun i =>
        (⟨i + 1, (lines.drop (i * lpp)).take lpp, false⟩ : PageData α))) (List.range n) =
        List.range n :=
      List.filter_eq_self.mpr (fun a _ => rfl)
    rw [hful]
    rfl
  cases elec <;>
    simp only [preparePagingData, Bool.false_eq_true, if_false, if_true, List.nil_append,
      List.singleton_append, List.filter_cons, List.filter_append, Bool.not_true,
      Bool.not_false, hmap, sliceChunks]

/-- C5: for every line list and positive `linesPerPage`, the non-cover pages of
`preparePagingData`, in order, carry exactly the consecutive slices
`[(k-1)*linesPerPage, min(k*linesPerPage, lineCount))` of the line list, so
concatenating them reproduces the original lines; concretely, a 3500-line
document at 30 lines per page with no cover yields 117 pages whose last page
has 20 lines. -/
lemma preparePagingData_concrete_total :
    (preparePagingData (List.replicate 3500 ()) 30 false).totalPages = 117 := by
  simp only [preparePagingData, Bool.false_eq_true, if_false, List.nil_append,
    List.length_map, List.length_range, List.length_replicate]

lemma preparePagingData_concrete_last :
    ((preparePagingData (List.replicate 3500 ()) 30 false).pages.getD 116
        default).lines.length = 20 := by
  have hlen : ((List.replicate 3500 ()).length + 30 - 1) / 30 = 117 := by
    rw [List.length_replicate]
  simp only [preparePagingData, Bool.false_eq_true, if_false, List.nil_append, hlen]
  rw [List.getD_eq_getElem _ _ (by simp only [List.length_map, List.length_range]; omega)]
  rw [List.getElem_map, List.getElem_range]
  simp only [List.length_take, List.length_drop, List.length_replicate]
  decide

/-- C5: for every line list and positive `linesPerPage`, the non-cover pages of
`preparePagingData`, in order, carry exactly the consecutive slices
`[(k-1)*linesPerPage, min(k*linesPerPage, lineCount))` of the line list, so
concatenating them reproduces the original lines; concretely, a 3500-line
document at 30 lines per page with no cover yields 117 pages whose last page
has 20 lines. -/
theorem preparePagingData_partition (lines : List α) (lpp : Nat) (elec : Bool)
    (hpp : 0 < lpp) :
    ((preparePagingData lines lpp elec).pages.filter (fun p => !p.isCover)).map
        PageData.lines =
      (List.range ((lines.length + lpp - 1) / lpp)).map
        (fun i => (lines.drop (i * lpp)).take lpp) ∧
    (((preparePagingData lines lpp elec).pages.filter (fun p => !p.isCover)).map
        PageData.lines).flatten = lines ∧
    (preparePagingData (List.replicate 3500 ()) 30 false).totalPages = 117 ∧
    ((preparePagingData (List.replicate 3500 ()) 30 false).pages.getD 116
        default).lines.length = 20 := by
  refine ⟨preparePagingData_noncover lines lpp elec, ?_,
    preparePagingData_concrete_total, preparePagingData_concrete_last⟩
  rw [preparePagingData_noncover lines lpp elec]
  exact sliceChunks_flatten lpp hpp lines

/-- Witness for C5 at three lines and two lines per page, with a cover page. -/
theorem preparePagingData_partition_witness :
    ((preparePagingData [10, 20, 30] 2 true).pages.filter (fun p => !p.isCover)).map
        PageData.lines =
      (List.range ((([10, 20, 30] : List Nat).length + 2 - 1) / 2)).map
        (fun i => (([10, 20, 30] : List Nat).drop (i * 2)).take 2) ∧
    (((preparePagingData [10, 20, 30] 2 true).pages.filter (fun p => !p.isCover)).map
        PageData.lines).flatten = [10, 20, 30] ∧
    (preparePagingData (List.replicate 3500 ()) 30 false).totalPages = 117 ∧
    ((preparePagingData (List.replicate 3500 ()) 30 false).pages.getD 116
        default).lines.length = 20 :=
  preparePagingData_partition [10, 20, 30] 2 true (by decide)

/-- C6: `getPageFromLine` is `floor(line / linesPerPage) + 1`, one more with a
cover page; `getFirstLineFromCurrentPage` is `(page - coverOffset - 1) *
linesPerPage` clamped to 0 when negative; and at `linesPerPage = 30` with no
cover, line 450 maps to page 16 and page 16 maps back to line 450. -/
theorem page_line_translation (lpp : Nat) (hpp : 0 < lpp) :
    (∀ line : Nat, getPageFromLine false lpp line = line / lpp + 1) ∧
    (∀ line : Nat, getPageFromLine true lpp line = line / lpp + 1 + 1) ∧
    (∀ p : Int, getFirstLineFromCurrentPage false lpp p = max 0 ((p - 0 - 1) * lpp)) ∧
    (∀ p : Int, getFirstLineFromCurrentPage true lpp p = max 0 ((p - 1 - 1) * lpp)) ∧
    getPageFromLine false 30 450 = 16 ∧
    getFirstLineFromCurrentPage false 30 16 = 450 := by
  have hlpp : (0 : Int) ≤ (lpp : Int) := Int.ofNat_nonneg lpp
  have hidxf : ∀ p : Int, coverAdjustedPageIndex false p = p - 1 := by
    intro p
    simp [coverAdjustedPageIndex]
  have hidxt1 : ∀ p : Int, ¬1 < p → coverAdjustedPageIndex true p = p - 1 := by
    intro p h2
    simp [coverAdjustedPageIndex, h2]
  have hidxt2 : ∀ p : Int, 1 < p → coverAdjustedPageIndex true p = p - 2 := by
    intro p h2
    simp [coverAdjustedPageIndex, h2]
  refine ⟨fun line => rfl, fun line => rfl, ?_, ?_, by decide, by decide⟩
  · intro p
    by_cases hp : p ≤ 0
    · have hneg : (p - 0 - 1) * lpp ≤ 0 :=
        mul_nonpos_of_nonpos_of_nonneg (by omega) hlpp
      rw [getFirstLineFromCurrentPage, if_pos hp, max_eq_left hneg]
    · have h1 : ¬((p - 1 : Int) < 0) := by omega
      have hnn : 0 ≤ (p - 0 - 1) * (lpp : Int) := mul_nonneg (by omega) hlpp
      rw [getFirstLineFromCurrentPage, if_neg hp, hidxf p, if_neg h1, max_eq_right hnn]
      ring
  · intro p
    by_cases hp : p ≤ 0
    · have hneg : (p - 1 - 1) * lpp ≤ 0 :=
        mul_nonpos_of_nonpos_of_nonneg (by omega) hlpp
      rw [getFirstLineFromCurrentPage, if_pos hp, max_eq_left hneg]
    · by_cases h2 : 1 < p
      · have h1 : ¬((p - 2 : Int) < 0) := by omega
        have hnn : 0 ≤ (p - 1 - 1) * (lpp : Int) := mul_nonneg (by omega) hlpp
        rw [getFirstLineFromCurrentPage, if_neg hp, hidxt2 p h2, if_neg h1, max_eq_right hnn]
        ring
      · have hp1 : p = 1 := by omega
        subst hp1
        have hneg : ((1 : Int) - 1 - 1) * lpp ≤ 0 :=
          mul_nonpos_of_nonpos_of_nonneg (by omega) hlpp
        rw [getFirstLineFromCurrentPage, if_neg hp, hidxt1 1 h2,
          if_neg (by omega : ¬((1 : Int) - 1 < 0)), max_eq_left hneg]
        simp

/-- Witness for C6 at `linesPerPage = 30`: the concrete round trip at line 450
and page 16. -/
theorem page_line_translation_witness :
    getPageFromLine false 30 450 = 16 ∧ getFirstLineFromCurrentPage false 30 16 = 450 :=
  ⟨(page_line_translation 30 (by decide)).2.2.2.2.1,
   (page_line_translation 30 (by decide)).2.2.2.2.2⟩

lemma nextSearch_nonempty (s : SearchState) (h : s.searchResults ≠ []) :
    nextSearch s = { s with currentSearchIndex :=
      (s.currentSearchIndex + 1) % (s.searchResults.length : Int) } := by
  unfold nextSearch
  rw [if_neg (fun hc => h (List.length_eq_zero.mp hc))]

lemma previousSearch_step (s : SearchState) (h : s.searchResults ≠ [])
    (h0 : 0 ≤ s.currentSearchIndex) :
    previousSearch s = { s with currentSearchIndex :=
      if s.currentSearchIndex = 0 then (s.searchResults.length : Int) - 1
      else s.currentSearchIndex - 1 } := by
  unfold previousSearch
  rw [if_neg (fun hc => h (List.length_eq_zero.mp hc))]
  by_cases hz : s.currentSearchIndex ≤ 0
  · have hz0 : s.currentSearchIndex = 0 := le_antisymm hz h0
    rw [if_pos hz, if_pos hz0]
  · rw [if_neg hz, if_neg (by omega)]

lemma sub_one_emod_eq (N j : Int) (h0 : 0 ≤ j) (h1 : j < N) :
    (j - 1) % N = if j = 0 then N - 1 else j - 1 := by
  by_cases hz : j = 0
  · subst hz
    rw [if_pos rfl]
    have h2 : (N - 1) % N = N - 1 := Int.emod_eq_of_lt (by omega) (by omega)
    calc ((0 : Int) - 1) % N = (0 - 1 + N * 1) % N := by rw [Int.add_mul_emod_self_left]
      _ = (N - 1) % N := by ring_nf
      _ = N - 1 := h2
  · rw [if_neg hz]
    exact Int.emod_eq_of_lt (by omega) (by omega)

lemma nextSearch_iterate (s : SearchState) (h : s.searchResults ≠ [])
    (h0 : 0 ≤ s.currentSearchIndex)
    (h1 : s.currentSearchIndex < (s.searchResults.length : Int)) :
    ∀ k : Nat, nextSearch^[k] s = { s with currentSearchIndex :=
      (s.currentSearchIndex + k) % (s.searchResults.length : Int) } := by
  intro k
  induction k with
  | zero =>
    simp only [Function.iterate_zero, id_eq, Nat.cast_zero, add_zero,
      Int.emod_eq_of_lt h0 h1]
  | succ k ih =>
    rw [Function.iterate_succ_apply', ih,
      nextSearch_nonempty ⟨s.searchResults,
        (s.currentSearchIndex + k) % (s.searchResults.length : Int)⟩ h]
    simp only [SearchState.mk.injEq, and_true, true_and]
    rw [Int.emod_add_emod]
    congr 1
    push_cast
    ring

lemma previousSearch_iterate (s : SearchState) (h : s.searchResults ≠ [])
    (h0 : 0 ≤ s.currentSearchIndex)
    (h1 : s.currentSearchIndex < (s.searchResults.length : Int)) :
    ∀ k : Nat, previousSearch^[k] s = { s with currentSearchIndex :=
      (s.currentSearchIndex - k) % (s.searchResults.length : Int) } := by
  have hN : (0 : Int) < (s.searchResults.length : Int) := by
    have := List.length_pos.mpr h
    omega
  intro k
  induction k with
  | zero =>
    simp only [Function.iterate_zero, id_eq, Nat.cast_zero, sub_zero,
      Int.emod_eq_of_lt h0 h1]
  | succ k ih =>
    have hj0 : 0 ≤ (s.currentSearchIndex - k) % (s.searchResults.length : Int) :=
      Int.emod_nonneg _ (by omega)
    have hj1 : (s.currentSearchIndex - k) % (s.searchResults.length : Int) <
        (s.searchResults.length : Int) := Int.emod_lt_of_pos _ hN
    rw [Function.iterate_succ_apply', ih,
      previousSearch_step ⟨s.searchResults,
        (s.currentSearchIndex - k) % (s.searchResults.length : Int)⟩ h hj0]
    simp only [SearchState.mk.injEq, and_true, true_and]
    rw [← sub_one_emod_eq _ _ hj0 hj1]
    calc ((s.currentSearchIndex - k) % (s.searchResults.length : Int) - 1) %
          (s.searchResults.length : Int)
        = ((s.currentSearchIndex - k) % (s.searchResults.length : Int) + (-1)) %
          (s.searchResults.length : Int) := by ring_nf
      _ = ((s.currentSearchIndex - k) + (-1)) % (s.searchResults.length : Int) :=
          Int.emod_add_emod _ _ _
      _ = (s.currentSearchIndex - (k + 1 : Nat)) % (s.searchResults.length : Int) := by
          push_cast
          ring_nf

/-- C7: on a non-empty match list, `nextSearch` moves the cursor to
`(index + 1) mod N` and `previousSearch` to `N - 1` when the index is 0 and to
`index - 1` otherwise, so `N` applications of either return an in-range cursor
to its start; on an empty match list both are no-ops. -/
theorem search_cursor_wraparound :
    (∀ s : SearchState, s.searchResults ≠ [] →
      nextSearch s = { s with currentSearchIndex :=
        (s.currentSearchIndex + 1) % (s.searchResults.length : Int) }) ∧
    (∀ s : SearchState, s.searchResults ≠ [] → 0 ≤ s.currentSearchIndex →
      previousSearch s = { s with currentSearchIndex :=
        if s.currentSearchIndex = 0 then (s.searchResults.length : Int) - 1
        else s.currentSearchIndex - 1 }) ∧
    (∀ s : SearchState, s.searchResults ≠ [] → 0 ≤ s.currentSearchIndex →
      s.currentSearchIndex < (s.searchResults.length : Int) →
      nextSearch^[s.searchResults.length] s = s) ∧
    (∀ s : SearchState, s.searchResults ≠ [] → 0 ≤ s.currentSearchIndex →
      s.currentSearchIndex < (s.searchResults.length : Int) →
      previousSearch^[s.searchResults.length] s = s) ∧
    (∀ s : SearchState, s.searchResults = [] →
      nextSearch s = s ∧ previousSearch s = s) := by
  refine ⟨nextSearch_nonempty, previousSearch_step, ?_, ?_, ?_⟩
  · intro s h h0 h1
    rw [nextSearch_iterate s h h0 h1 s.searchResults.length]
    have hz : (s.currentSearchIndex + s.searchResults.length) %
        (s.searchResults.length : Int) = s.currentSearchIndex := by
      calc (s.currentSearchIndex + (s.searchResults.length : Int)) %
            (s.searchResults.length : Int)
          = (s.currentSearchIndex + (s.searchResults.length : Int) * 1) %
            (s.searchResults.length : Int) := by ring_nf
        _ = s.currentSearchIndex % (s.searchResults.length : Int) := by
            rw [Int.add_mul_emod_self_left]
        _ = s.currentSearchIndex := Int.emod_eq_of_lt h0 h1
    rw [hz]
  · intro s h h0 h1
    rw [previousSearch_iterate s h h0 h1 s.searchResults.length]
    have hz : (s.currentSearchIndex - s.searchResults.length) %
        (s.searchResults.length : Int) = s.currentSearchIndex := by
      calc (s.currentSearchIndex - (s.searchResults.length : Int)) %
            (s.searchResults.length : Int)
          = (s.currentSearchIndex + (s.searchResults.length : Int) * (-1)) %
            (s.searchResults.length : Int) := by ring_nf
        _ = s.currentSearchIndex % (s.searchResults.length : Int) := by
            rw [Int.add_mul_emod_self_left]
        _ = s.currentSearchIndex := Int.emod_eq_of_lt h0 h1
    rw [hz]
  · intro s h
    refine ⟨?_, ?_⟩
    · unfold nextSearch
      rw [if_pos (by rw [h]; rfl)]
    · unfold previousSearch
      rw [if_pos (by rw [h]; rfl)]

/-- Witness for C7 on a two-match list with the cursor at 0. -/
theorem search_cursor_wraparound_witness :
    nextSearch ⟨[⟨0, 1, [97]⟩, ⟨4, 1, [97]⟩], 0⟩ =
      { searchResults := [⟨0, 1, [97]⟩, ⟨4, 1, [97]⟩],
        currentSearchIndex := ((0 : Int) + 1) % ((2 : Nat) : Int) } ∧
    nextSearch^[2] ⟨[⟨0, 1, [97]⟩, ⟨4, 1, [97]⟩], 0⟩ =
      ⟨[⟨0, 1, [97]⟩, ⟨4, 1, [97]⟩], 0⟩ ∧
    previousSearch^[2] ⟨[⟨0, 1, [97]⟩, ⟨4, 1, [97]⟩], 0⟩ =
      ⟨[⟨0, 1, [97]⟩, ⟨4, 1, [97]⟩], 0⟩ ∧
    nextSearch ⟨[], -1⟩ = ⟨[], -1⟩ :=
  ⟨search_cursor_wraparound.1 ⟨[⟨0, 1, [97]⟩, ⟨4, 1, [97]⟩], 0⟩ (by decide),
   search_cursor_wraparound.2.2.1 ⟨[⟨0, 1, [97]⟩, ⟨4, 1, [97]⟩], 0⟩
     (by decide) (by decide) (by decide),
   search_cursor_wraparound.2.2.2.1 ⟨[⟨0, 1, [97]⟩, ⟨4, 1, [97]⟩], 0⟩
     (by decide) (by decide) (by decide),
   (search_cursor_wraparound.2.2.2.2 ⟨[], -1⟩ rfl).1⟩

lemma charEq_nl_of {c : Nat} (h : charEq c nlCode = true) : c = nlCode := by
  have hfold : foldCode nlCode = nlCode := rfl
  simp only [charEq, beq_iff_eq, hfold] at h
  simp only [foldCode, nlCode] at h ⊢
  split at h <;> omega

lemma isMatchAt_length {q t : JSString} (h : isMatchAt q t = true) : q.length ≤ t.length := by
  induction q generalizing t with
  | nil => simp
  | cons a qs ih =>
    cases t with
    | nil => simp [isMatchAt] at h
    | cons b ts =>
      simp only [isMatchAt, Bool.and_eq_true] at h
      have := ih h.2
      simp only [List.length_cons]
      omega

lemma isMatchAt_append {q t₁ : JSString} (t₂ : JSString) (h : q.length ≤ t₁.length) :
    isMatchAt q (t₁ ++ t₂) = isMatchAt q t₁ := by
  induction q generalizing t₁ with
  | nil => rfl
  | cons a qs ih =>
    cases t₁ with
    | nil => simp at h
    | cons b ts =>
      simp only [List.cons_append, isMatchAt]
      congr 1
      exact ih (by simp only [List.length_cons] at h; omega)

lemma isMatchAt_no_nl {q t : JSString} (hq : nlCode ∉ q) (h : isMatchAt q t = true) :
    nlCode ∉ t.take q.length := by
  induction q generalizing t with
  | nil => simp
  | cons a qs ih =>
    cases t with
    | nil => simp [isMatchAt] at h
    | cons b ts =>
      simp only [isMatchAt, Bool.and_eq_true] at h
      simp only [List.length_cons, List.take_succ_cons]
      intro hmem
      rcases List.mem_cons.mp hmem with hb | hmem2
      · have ha : a ≠ nlCode := fun hc => hq (by simp [hc])
        apply ha
        apply charEq_nl_of
        rw [← hb] at h
        exact h.1
      · exact ih (fun hc => hq (List.mem_cons_of_mem a hc)) h.2 hmem2

lemma isMatchAt_nl_head {q : JSString} (hq : q ≠ []) (hn : nlCode ∉ q) (b : JSString) :
    isMatchAt q (nlCode :: b) = false := by
  cases q with
  | nil => exact absurd rfl hq
  | cons a qs =>
    have ha : a ≠ nlCode := fun hc => hn (by simp [hc])
    simp only [isMatchAt]
    cases hce : charEq a nlCode with
    | false => simp
    | true => exact absurd (charEq_nl_of hce) ha

lemma findMatchesF_fuel (q : JSString) (hq : q ≠ []) :
    ∀ fuel₁ : Nat, ∀ {fuel₂ : Nat} {t : JSString} {pos : Nat},
      t.length ≤ fuel₁ → t.length ≤ fuel₂ →
      findMatchesF q fuel₁ t pos = findMatchesF q fuel₂ t pos := by
  have hq1 : 1 ≤ q.length := List.length_pos.mpr hq
  intro fuel₁
  induction fuel₁ with
  | zero =>
    intro fuel₂ t pos h1 h2
    have ht : t = [] := List.eq_nil_of_length_eq_zero (by omega)
    subst ht
    cases fuel₂ <;> rfl
  | succ fuel ih =>
    intro fuel₂ t pos h1 h2
    cases t with
    | nil => cases fuel₂ <;> rfl
    | cons c rest =>
      cases fuel₂ with
      | zero => simp at h2
      | succ fuel₂ =>
        simp only [findMatchesF]
        simp only [List.length_cons] at h1 h2
        by_cases hm : isMatchAt q (c :: rest) = true
        · rw [if_pos hm, if_pos hm]
          congr 1
          exact ih (by simp only [List.length_drop, List.length_cons]; omega)
            (by simp only [List.length_drop, List.length_cons]; omega)
        · rw [if_neg hm, if_neg hm]
          exact ih (by omega) (by omega)

lemma findMatches_cons (q : JSString) (hq : q ≠ []) (c : Nat) (rest : JSString) (pos : Nat) :
    findMatches q (c :: rest) pos =
      if isMatchAt q (c :: rest) then
        ⟨pos, q.length, (c :: rest).take q.length⟩ ::
          findMatches q ((c :: rest).drop q.length) (pos + q.length)
      else
        findMatches q rest (pos + 1) := by
  have hq1 : 1 ≤ q.length := List.length_pos.mpr hq
  unfold findMatches
  simp only [List.length_cons, findMatchesF]
  by_cases hm : isMatchAt q (c :: rest) = true
  · rw [if_pos hm, if_pos hm]
    congr 1
    exact findMatchesF_fuel q hq _
      (by simp only [List.length_drop, List.length_cons]; omega) le_rfl
  · rw [if_neg hm, if_neg hm]

lemma findMatchesF_shift (q : JSString) :
    ∀ (fuel : Nat) (t : JSString) (p d : Nat),
      findMatchesF q fuel t (p + d) =
        (findMatchesF q fuel t p).map (fun m => ⟨m.index + d, m.length, m.text⟩) := by
  intro fuel
  induction fuel with
  | zero => intro t p d; rfl
  | succ fuel ih =>
    intro t p d
    cases t with
    | nil => rfl
    | cons c rest =>
      simp only [findMatchesF]
      by_cases hm : isMatchAt q (c :: rest) = true
      · rw [if_pos hm, if_pos hm]
        simp only [List.map_cons]
        congr 1
        have h2 : p + d + q.length = (p + q.length) + d := by omega
        rw [h2, ih]
      · rw [if_neg hm, if_neg hm]
        have h2 : p + d + 1 = (p + 1) + d := by omega
        rw [h2, ih]

lemma findMatches_offset (q t : JSString) (d : Nat) :
    findMatches q t d = (findMatches q t 0).map (fun m => ⟨m.index + d, m.length, m.text⟩) := by
  have := findMatchesF_shift q t.length t 0 d
  rw [Nat.zero_add] at this
  exact this

lemma findMatches_append_nl (q : JSString) (hq : q ≠ []) (hn : nlCode ∉ q) :
    ∀ (a b : JSString) (p : Nat),
      findMatches q (a ++ nlCode :: b) p =
        findMatches q a p ++ findMatches q b (p + (a.length + 1)) := by
  have hq1 : 1 ≤ q.length := List.length_pos.mpr hq
  suffices hgen : ∀ (n : Nat) (a b : JSString) (p : Nat), a.length ≤ n →
      findMatches q (a ++ nlCode :: b) p =
        findMatches q a p ++ findMatches q b (p + (a.length + 1)) by
    intro a b p
    exact hgen a.length a b p le_rfl
  intro n
  induction n with
  | zero =>
    intro a b p ha
    have ha0 : a = [] := List.eq_nil_of_length_eq_zero (by omega)
    subst ha0
    have hf : ¬isMatchAt q (nlCode :: b) = true := by
      rw [isMatchAt_nl_head hq hn]
      exact Bool.false_ne_true
    rw [List.nil_append, findMatches_cons q hq nlCode b p, if_neg hf]
    have h2 : findMatches q ([] : JSString) p = [] := rfl
    rw [h2, List.nil_append, List.length_nil, Nat.zero_add]
  | succ n ih =>
    intro a b p ha
    cases a with
    | nil =>
      have hf : ¬isMatchAt q (nlCode :: b) = true := by
        rw [isMatchAt_nl_head hq hn]
        exact Bool.false_ne_true
      rw [List.nil_append, findMatches_cons q hq nlCode b p, if_neg hf]
      have h2 : findMatches q ([] : JSString) p = [] := rfl
      rw [h2, List.nil_append, List.length_nil, Nat.zero_add]
    | cons c a2 =>
      have hsplit : c :: (a2 ++ nlCode :: b) = (c :: a2) ++ nlCode :: b := by simp
      rw [List.cons_append]
      by_cases hm : isMatchAt q (c :: (a2 ++ nlCode :: b)) = true
      · have hqa : q.length ≤ (c :: a2).length := by
          by_contra hgt
          push_neg at hgt
          have hwin := isMatchAt_no_nl hn hm
          apply hwin
          rw [hsplit, List.take_append_eq_append_take]
          apply List.mem_append_right
          have hk : 1 ≤ q.length - (c :: a2).length := by omega
          cases hq2 : q.length - (c :: a2).length with
          | zero => omega
          | succ k =>
            rw [List.take_succ_cons]
            exact List.mem_cons_self _ _
        have hm2 : isMatchAt q (c :: a2) = true := by
          rw [hsplit, isMatchAt_append _ hqa] at hm
          exact hm
        have htake : (c :: (a2 ++ nlCode :: b)).take q.length = (c :: a2).take q.length := by
          rw [hsplit]
          exact List.take_append_of_le_length hqa
        have hdrop : (c :: (a2 ++ nlCode :: b)).drop q.length =
            ((c :: a2).drop q.length) ++ nlCode :: b := by
          rw [hsplit]
          exact List.drop_append_of_le_length hqa
        have hqa2 : q.length ≤ a2.length + 1 := by simpa using hqa
        have ha2 : a2.length + 1 ≤ n + 1 := by simpa using ha
        rw [findMatches_cons q hq c (a2 ++ nlCode :: b) p, if_pos hm,
          findMatches_cons q hq c a2 p, if_pos hm2, htake, hdrop]
        have hbound : ((c :: a2).drop q.length).length ≤ n := by
          rw [List.length_drop]
          simp only [List.length_cons]
          omega
        rw [ih ((c :: a2).drop q.length) b (p + q.length) hbound]
        have hoff : p + q.length + (((c :: a2).drop q.length).length + 1) =
            p + ((c :: a2).length + 1) := by
          rw [List.length_drop]
          simp only [List.length_cons]
          omega
        rw [hoff, List.cons_append]
      · have hm2 : ¬isMatchAt q (c :: a2) = true := by
          intro hv
          apply hm
          rw [hsplit, isMatchAt_append _ (isMatchAt_length hv)]
          exact hv
        rw [findMatches_cons q hq c (a2 ++ nlCode :: b) p, if_neg hm,
          findMatches_cons q hq c a2 p, if_neg hm2]
        have hbound : a2.length ≤ n := by
          simp only [List.length_cons] at ha
          omega
        rw [ih a2 b (p + 1) hbound]
        have hoff : p + 1 + (a2.length + 1) = p + ((c :: a2).length + 1) := by
          simp only [List.length_cons]
          omega
        rw [hoff]

lemma joinLines_append (a b : List JSString) (ha : a ≠ []) (hb : b ≠ []) :
    joinLines (a ++ b) = joinLines a ++ nlCode :: joinLines b := by
  induction a with
  | nil => exact absurd rfl ha
  | cons x a2 ih =>
    cases a2 with
    | nil =>
      cases b with
      | nil => exact absurd rfl hb
      | cons y ys => rfl
    | cons z a3 =>
      have ih2 := ih (by simp)
      simp only [List.cons_append] at ih2 ⊢
      rw [show joinLines (x :: z :: (a3 ++ b)) = x ++ nlCode :: joinLines (z :: (a3 ++ b))
          from rfl,
        show joinLines (x :: z :: a3) = x ++ nlCode :: joinLines (z :: a3) from rfl,
        ih2, List.append_assoc]
      rfl

lemma performVirtualSearchGo_spec (cc q : JSString) (hq : q ≠ []) (hn : nlCode ∉ q) :
    ∀ (cs : List (List JSString)) (g : Nat),
      (∀ c ∈ cs, joinLines c ≠ []) →
      performVirtualSearchGo cc q cs g = findMatches q (joinLines cs.flatten) g := by
  intro cs
  induction cs with
  | nil => intro g _; rfl
  | cons c cs2 ih =>
    intro g hne
    have hc : joinLines c ≠ [] := hne c (List.mem_cons_self _ _)
    have he : (joinLines c).isEmpty = false := by
      cases hjc : joinLines c with
      | nil => exact absurd hjc hc
      | cons _ _ => rfl
    have hfit : findInText cc q (some (joinLines c)) g = findMatches q (joinLines c) g := by
      simp only [findInText]
      rw [if_neg (by rw [he]; exact Bool.false_ne_true)]
      rw [← findMatches_offset q (joinLines c) g]
    simp only [performVirtualSearchGo]
    rw [hfit]
    cases cs2 with
    | nil =>
      simp only [performVirtualSearchGo, List.append_nil, List.flatten_cons,
        List.flatten_nil]
    | cons d ds =>
      have hne2 : ∀ x ∈ d :: ds, joinLines x ≠ [] :=
        fun x hx => hne x (List.mem_cons_of_mem c hx)
      rw [ih _ hne2]
      have hcne : c ≠ [] := fun hcc => hc (by rw [hcc]; rfl)
      have hdne : (d :: ds).flatten ≠ [] := by
        have hd : d ≠ [] :=
          fun hdd => (hne2 d (List.mem_cons_self _ _)) (by rw [hdd]; rfl)
        cases d with
        | nil => exact absurd rfl hd
        | cons y ys => simp [List.flatten_cons]
      have hsplit : joinLines ((c :: d :: ds).flatten) =
          joinLines c ++ nlCode :: joinLines ((d :: ds).flatten) := by
        rw [List.flatten_cons]
        exact joinLines_append c ((d :: ds).flatten) hcne hdne
      rw [hsplit, findMatches_append_nl q hq hn]
      congr 2

/-- C2 (amended): per-chunk search agrees with full-text search for every
non-empty query that contains no newline, provided every chunk's joined text is
non-empty (the joined text of a chunk is empty exactly when the chunk is a
single empty line, which arises only when the line count is 1 modulo 1000 and
the final line is empty; `findInText` then falls back to searching the whole
`currentContent`). -/
theorem virtual_search_matches_full (q : JSString) (lines : List JSString)
    (hq : q ≠ []) (hn : nlCode ∉ q)
    (hchunks : ∀ c ∈ sliceChunks chunkSize lines, joinLines c ≠ []) :
    performVirtualSearch (joinLines lines) q (sliceChunks chunkSize lines) =
      findInText (joinLines lines) q none 0 := by
  unfold performVirtualSearch
  rw [performVirtualSearchGo_spec (joinLines lines) q hq hn _ 0 hchunks,
    sliceChunks_flatten chunkSize (by norm_num [chunkSize]) lines]
  show findMatches q (joinLines lines) 0 =
    (findMatches q (joinLines lines) 0).map (fun m => ⟨m.index + 0, m.length, m.text⟩)
  have hmap : ∀ ms : List SearchMatch,
      ms.map (fun m => (⟨m.index + 0, m.length, m.text⟩ : SearchMatch)) = ms := by
    intro ms
    induction ms with
    | nil => rfl
    | cons m ms ihm =>
      rw [List.map_cons, ihm]
      exact rfl
  rw [hmap]

/-- Witness for C2 (amended) on the two-line document ["a", "b"] and the query
"a": one chunk, identical match lists. -/
theorem virtual_search_matches_full_witness :
    performVirtualSearch (joinLines [[97], [98]]) [97] (sliceChunks chunkSize [[97], [98]]) =
      findInText (joinLines [[97], [98]]) [97] none 0 :=
  virtual_search_matches_full [97] [[97], [98]] (by decide) (by decide) (by decide)

lemma joinLines_rep_ne_nil (n : Nat) : joinLines (List.replicate (n + 1) [97]) ≠ [] := by
  rw [List.replicate_succ]
  cases h : List.replicate n ([97] : JSString) with
  | nil => simp [joinLines]
  | cons y ys => simp [joinLines]

lemma joinLines_rep_step (n : Nat) :
    joinLines (List.replicate (n + 1 + 1) [97]) =
      97 :: nlCode :: joinLines (List.replicate (n + 1) [97]) := by
  rw [List.replicate_succ, List.replicate_succ]
  rfl

lemma count_nl (n : Nat) : ∀ p : Nat,
    (findMatches [nlCode] (joinLines (List.replicate (n + 1) [97])) p).length = n := by
  induction n with
  | zero => intro p; rfl
  | succ n ihn =>
    intro p
    rw [joinLines_rep_step n, findMatches_cons [nlCode] (by decide) 97 _ p]
    rw [if_neg ?hno]
    case hno =>
      simp only [isMatchAt]
      rw [show charEq nlCode 97 = false from rfl]
      simp
    rw [findMatches_cons [nlCode] (by decide) nlCode _ (p + 1)]
    rw [if_pos ?hyes]
    case hyes =>
      simp only [isMatchAt]
      rw [show charEq nlCode nlCode = true from rfl]
      simp [isMatchAt]
    show (findMatches [nlCode] (joinLines (List.replicate (n + 1) [97]))
      (p + 1 + 1)).length + 1 = n + 1
    rw [ihn (p + 1 + 1)]

lemma sliceChunks_counterLines :
    sliceChunks chunkSize counterLines =
      [List.replicate 1000 [97], List.replicate 1 [97]] := by
  have h1 : counterLines ≠ [] := by
    refine List.length_pos.mp ?_
    unfold counterLines
    rw [List.length_replicate]
    norm_num
  rw [show chunkSize = 1000 from rfl,
    sliceChunks_cons 1000 (by norm_num) counterLines h1,
    show counterLines.take 1000 = List.replicate 1000 [97] by
      unfold counterLines
      rw [List.take_replicate, show (1000 ⊓ 1001) = 1000 from by decide],
    show counterLines.drop 1000 = List.replicate 1 [97] by
      unfold counterLines
      rw [List.drop_replicate, show (1001 - 1000) = 1 from by decide],
    sliceChunks_cons 1000 (by norm_num) (List.replicate 1 [97]) (by simp),
    show (List.replicate 1 ([97] : JSString)).take 1000 = List.replicate 1 [97] by
      rw [List.take_replicate, show (1000 ⊓ 1) = 1 from by decide],
    show (List.replicate 1 ([97] : JSString)).drop 1000 = [] by
      rw [List.drop_replicate, show (1 - 1000) = 0 from by decide]
      rfl]
  rw [sliceChunks_nil]

lemma chunk_len_gen (m : Nat) (cc : JSString) (g : Nat)
    (hne : joinLines (List.replicate (m + 1) [97]) ≠ []) :
    (findInText cc [nlCode] (some (joinLines (List.replicate (m + 1) [97]))) g).length
      = m := by
  have he : (joinLines (List.replicate (m + 1) [97])).isEmpty = false := by
    cases hjc : joinLines (List.replicate (m + 1) [97]) with
    | nil => exact absurd hjc hne
    | cons _ _ => rfl
  simp only [findInText]
  rw [if_neg (by rw [he]; exact Bool.false_ne_true), List.length_map]
  exact count_nl m 0

lemma chunked_search_len :
    (performVirtualSearch (joinLines counterLines) [nlCode]
      (sliceChunks chunkSize counterLines)).length = 999 := by
  rw [sliceChunks_counterLines]
  unfold performVirtualSearch
  simp only [performVirtualSearchGo, List.append_nil, List.length_append]
  have h1 : (findInText (joinLines counterLines) [nlCode]
      (some (joinLines (List.replicate 1000 [97]))) 0).length = 999 := by
    have := chunk_len_gen 999 (joinLines counterLines) 0 (joinLines_rep_ne_nil 999)
    norm_num at this
    exact this
  have h2 : ∀ g, (findInText (joinLines counterLines) [nlCode]
      (some (joinLines (List.replicate 1 [97]))) g).length = 0 := by
    intro g
    exact chunk_len_gen 0 (joinLines counterLines) g (joinLines_rep_ne_nil 0)
  rw [h1, h2]

lemma full_search_len :
    (findInText (joinLines counterLines) [nlCode] none 0).length = 1000 := by
  simp only [findInText]
  rw [List.length_map]
  have hc := count_nl 1000 0
  norm_num at hc
  exact hc

/-- C2 counterexample: on the 1001-line document of "a" lines with the query
"\n", full-text search finds 1000 newlines but per-chunk search finds only the
999 newlines interior to the first chunk — the newline at the 1000/1001 chunk
boundary is in no chunk's joined text, so the two match sequences differ. -/
theorem virtual_search_counterexample :
    performVirtualSearch (joinLines counterLines) [nlCode]
        (sliceChunks chunkSize counterLines) ≠
      findInText (joinLines counterLines) [nlCode] none 0 := by
  intro h
  have hlen := congrArg List.length h
  rw [chunked_search_len, full_search_len] at hlen
  exact absurd hlen (by norm_num)

lemma readGo_content (decode : String → List Nat → JSString) :
    ∀ (fuel : Nat) (bytes : List Nat) (offset : Nat), bytes.length ≤ fuel →
      (readFileInChunksGo decode fuel bytes offset).1 =
        ((sliceChunks byteChunkSize bytes).map (decode "UTF-8")).flatten := by
  intro fuel
  induction fuel with
  | zero =>
    intro bytes offset hlen
    have hb : bytes = [] := List.eq_nil_of_length_eq_zero (by omega)
    subst hb
    rw [sliceChunks_nil]
    rfl
  | succ fuel ih =>
    intro bytes offset hlen
    cases bytes with
    | nil =>
      rw [sliceChunks_nil]
      rfl
    | cons b bs =>
      have hbig : 0 < byteChunkSize := by norm_num [byteChunkSize]
      simp only [readFileInChunksGo]
      rw [sliceChunks_cons byteChunkSize hbig (b :: bs) (by simp), List.map_cons,
        List.flatten_cons]
      congr 1
      apply ih
      rw [List.length_drop]
      simp only [List.length_cons] at hlen ⊢
      have h1 : 1 ≤ byteChunkSize := hbig
      omega

lemma readGo_yields (decode : String → List Nat → JSString) :
    ∀ (fuel : Nat) (bytes : List Nat) (k : Nat), bytes.length ≤ fuel →
      (readFileInChunksGo decode fuel bytes (k * byteChunkSize)).2 =
        (k + (sliceChunks byteChunkSize bytes).length) / 10 - k / 10 := by
  intro fuel
  induction fuel with
  | zero =>
    intro bytes k hlen
    have hb : bytes = [] := List.eq_nil_of_length_eq_zero (by omega)
    subst hb
    rw [sliceChunks_nil]
    simp [readFileInChunksGo]
  | succ fuel ih =>
    intro bytes k hlen
    cases bytes with
    | nil =>
      rw [sliceChunks_nil]
      simp [readFileInChunksGo]
    | cons b bs =>
      have hbig : 0 < byteChunkSize := by norm_num [byteChunkSize]
      simp only [readFileInChunksGo]
      have hoff : k * byteChunkSize + byteChunkSize = (k + 1) * byteChunkSize := by ring
      rw [hoff]
      have hdlen : ((b :: bs).drop byteChunkSize).length ≤ fuel := by
        rw [List.length_drop]
        simp only [List.length_cons] at hlen ⊢
        have h1 : 1 ≤ byteChunkSize := hbig
        omega
      rw [ih ((b :: bs).drop byteChunkSize) (k + 1) hdlen]
      rw [sliceChunks_cons byteChunkSize hbig (b :: bs) (by simp), List.length_cons]
      simp only [byteChunkSize]
      split <;> omega

lemma readFileInChunks_spec (decode : String → List Nat → JSString) (file : List Nat) :
    (readFileInChunks decode file).1 =
        ((sliceChunks byteChunkSize file).map (decode "UTF-8")).flatten ∧
    (readFileInChunks decode file).2 = (sliceChunks byteChunkSize file).length / 10 := by
  constructor
  · exact readGo_content decode file.length file 0 le_rfl
  · have h := readGo_yields decode file.length file 0 le_rfl
    rw [Nat.zero_mul] at h
    simpa using h

/-- C8: a file strictly larger than 50 MB bypasses encoding detection
entirely: `readFileContent` reports "UTF-8" whatever the bytes are, its
content is the concatenation, in order, of the file's consecutive 1 MB slices
each decoded as UTF-8, and the loop yields control once per 10 slices. -/
theorem large_file_forced_utf8 (decode : String → List Nat → JSString)
    (file : List Nat) (hbig : largeFileThreshold < file.length) :
    (readFileContent decode file).2.1 = "UTF-8" ∧
    (readFileContent decode file).1 =
      ((sliceChunks byteChunkSize file).map (decode "UTF-8")).flatten ∧
    (readFileContent decode file).2.2 = (sliceChunks byteChunkSize file).length / 10 := by
  unfold readFileContent
  rw [if_pos hbig]
  exact ⟨rfl, (readFileInChunks_spec decode file).1, (readFileInChunks_spec decode file).2⟩

/-- Witness for C8 at a 50 MB + 1 byte zero-filled file and the decoder that
returns the bytes unchanged. -/
theorem large_file_forced_utf8_witness :
    (readFileContent (fun _ bs => bs) (List.replicate 52428801 0)).2.1 = "UTF-8" ∧
    (readFileContent (fun _ bs => bs) (List.replicate 52428801 0)).1 =
      ((sliceChunks byteChunkSize (List.replicate 52428801 0)).map
        ((fun (_ : String) (bs : List Nat) => bs) "UTF-8")).flatten ∧
    (readFileContent (fun _ bs => bs) (List.replicate 52428801 0)).2.2 =
      (sliceChunks byteChunkSize (List.replicate 52428801 0)).length / 10 :=
  large_file_forced_utf8 (fun _ bs => bs) (List.replicate 52428801 0)
    (by rw [List.length_replicate]; norm_num [largeFileThreshold])

/-- C9: when the read fails, `addBookFromFile` surfaces the error and returns
the state unchanged — same library, same selected book, same displayed
content; no book is added and no partial content is installed. -/
theorem add_book_read_failure (newId : Nat) (now : String) (meta : FileMeta)
    (fileBytes : List Nat) (e : String) (st : ViewerState) :
    (addBookFromFile newId now meta fileBytes (Except.error e) st).1 = st ∧
    (addBookFromFile newId now meta fileBytes (Except.error e) st).1.library =
      st.library ∧
    (addBookFromFile newId now meta fileBytes (Except.error e) st).1.currentContent =
      st.currentContent ∧
    (addBookFromFile newId now meta fileBytes (Except.error e) st).1.selectedBook =
      st.selectedBook ∧
    (addBookFromFile newId now meta fileBytes (Except.error e) st).2.errors =
      ["파일을 읽을 수 없습니다."] :=
  ⟨rfl, rfl, rfl, rfl, rfl⟩

/-- C10: with a selected book that has no Electron-usable file path and no
retained original file, `changeEncoding` rewrites only that book's `encoding`
field: the book's content and all other fields, the displayed content, and the
selection are unchanged, and no re-decode happens (the result does not depend
on the decoder). -/
theorem change_encoding_label_only
    (electronRead : Option (String → String → Option JSString))
    (decodeAs : List Nat → String → JSString) (newEncoding : String)
    (st : ViewerState) (i : Nat) (book : Book)
    (hsel : st.selectedBook = some i)
    (hbook : st.library[i]? = some book)
    (hhost : ¬(book.filePath.isSome ∧ electronRead.isSome))
    (horig : book.originalFile = none) :
    changeEncoding electronRead decodeAs newEncoding st =
      ({ st with library := st.library.set i { book with encoding := newEncoding } },
        ⟨[], ["인코딩 정보가 변경되었습니다."]⟩) ∧
    (changeEncoding electronRead decodeAs newEncoding st).1.currentContent =
      st.currentContent ∧
    (changeEncoding electronRead decodeAs newEncoding st).1.selectedBook =
      st.selectedBook := by
  have hmain : changeEncoding electronRead decodeAs newEncoding st =
      ({ st with library := st.library.set i { book with encoding := newEncoding } },
        ⟨[], ["인코딩 정보가 변경되었습니다."]⟩) := by
    rcases hfp : book.filePath with _ | path
    · rcases her : electronRead with _ | api
      · simp [changeEncoding, hsel, hbook, hfp, her, horig]
      · simp [changeEncoding, hsel, hbook, hfp, her, horig]
    · rcases her : electronRead with _ | api
      · simp [changeEncoding, hsel, hbook, hfp, her, horig]
      · exact absurd ⟨by rw [hfp]; rfl, by rw [her]; rfl⟩ hhost
  refine ⟨hmain, ?_, ?_⟩ <;> rw [hmain]

/-- Witness for C10 at a one-book library with no file path and no retained
original file. -/
theorem change_encoding_label_only_witness :
    changeEncoding none (fun _ _ => [])
        "EUC-KR" ⟨[⟨0, "b", 1, 0, [97], "UTF-8", "UTF-8", none, none, "d"⟩], some 0, [97]⟩ =
      (⟨[⟨0, "b", 1, 0, [97], "EUC-KR", "UTF-8", none, none, "d"⟩], some 0, [97]⟩,
        ⟨[], ["인코딩 정보가 변경되었습니다."]⟩) := by
  have h := change_encoding_label_only none (fun _ _ => []) "EUC-KR"
    ⟨[⟨0, "b", 1, 0, [97], "UTF-8", "UTF-8", none, none, "d"⟩], some 0, [97]⟩ 0
    ⟨0, "b", 1, 0, [97], "UTF-8", "UTF-8", none, none, "d"⟩
    rfl (by rfl) (by simp) rfl
  rw [h.1]
  rfl

end TextViewer
